import Mathlib

/-!
Shallow embedding of the `features` package (src/features/features.go):
a process-wide registry of named boolean feature flags with operations
`Set`, `Enabled` and `Reset`.

Modelling choices:
* Go's `FeatureFlag` is an `int`; the declared constants form the inductive
  `FeatureFlag` below and `FeatureFlag.toInt` gives their `iota` codes.
  Raw `Int` arguments model identifiers produced by arbitrary (possibly
  invalid) casts.
* Go maps keyed by `FeatureFlag` become functions `Int → Option Bool`
  (`none` = key absent). A read of an absent key that Go defaults to the
  zero value is rendered with `Option.getD false`.
* The mutable package-level maps `features` and `initial` form the record
  `RegState`; each operation takes and returns such a state explicitly.
* Iteration over the input map of `Set` is modelled by a list of
  (name, value) pairs, covering every enumeration order of the map.
* `Enabled`'s panic on an unknown identifier is modelled by returning
  `none`; a normal return is `some v`.
-/

namespace Features

/-- The closed vocabulary of feature flags declared in features.go. -/
inductive FeatureFlag : Type
  | unused
  | CAAValidationMethods
  | CAAAccountURI
  | EnforceMultiVA
  | MultiVAFullResults
  | MandatoryPOSTAsGET
  | ECDSAForAll
  | ServeRenewalInfo
  | AllowReRevocation
  | MozRevocationReasons
  | OldTLSOutbound
  | OldTLSInbound
  | SHA1CSRs
  | AllowUnrecognizedFeatures
  deriving DecidableEq, Repr, Fintype

open FeatureFlag

/-- The `iota` integer code of each constant in the Go `const` block. -/
def FeatureFlag.toInt : FeatureFlag → Int
  | unused => 0
  | CAAValidationMethods => 1
  | CAAAccountURI => 2
  | EnforceMultiVA => 3
  | MultiVAFullResults => 4
  | MandatoryPOSTAsGET => 5
  | ECDSAForAll => 6
  | ServeRenewalInfo => 7
  | AllowReRevocation => 8
  | MozRevocationReasons => 9
  | OldTLSOutbound => 10
  | OldTLSInbound => 11
  | SHA1CSRs => 12
  | AllowUnrecognizedFeatures => 13

/-- Modelled from the spec: the canonical name of each flag identifier.
The repository's stringer-generated `FeatureFlag.String` method
(featureflag_string.go) is not under src/; per the spec the flag name is
"the human-readable string form of a Flag Identifier" and the lookup table
is "built once at initialization from the identifiers' own canonical
names", i.e. each identifier's own spelling. -/
def FeatureFlag.name : FeatureFlag → String
  | unused => "unused"
  | CAAValidationMethods => "CAAValidationMethods"
  | CAAAccountURI => "CAAAccountURI"
  | EnforceMultiVA => "EnforceMultiVA"
  | MultiVAFullResults => "MultiVAFullResults"
  | MandatoryPOSTAsGET => "MandatoryPOSTAsGET"
  | ECDSAForAll => "ECDSAForAll"
  | ServeRenewalInfo => "ServeRenewalInfo"
  | AllowReRevocation => "AllowReRevocation"
  | MozRevocationReasons => "MozRevocationReasons"
  | OldTLSOutbound => "OldTLSOutbound"
  | OldTLSInbound => "OldTLSInbound"
  | SHA1CSRs => "SHA1CSRs"
  | AllowUnrecognizedFeatures => "AllowUnrecognizedFeatures"

/-- Every declared flag identifier, in declaration order. -/
def allFlags : List FeatureFlag :=
  [unused, CAAValidationMethods, CAAAccountURI, EnforceMultiVA,
   MultiVAFullResults, MandatoryPOSTAsGET, ECDSAForAll, ServeRenewalInfo,
   AllowReRevocation, MozRevocationReasons, OldTLSOutbound, OldTLSInbound,
   SHA1CSRs, AllowUnrecognizedFeatures]

/-- The default value of each flag, from the `features` map literal in
features.go. -/
def defaultValue : FeatureFlag → Bool
  | OldTLSOutbound => true
  | OldTLSInbound => true
  | SHA1CSRs => true
  | _ => false

/-- Decoding an integer code back to a flag identifier, when the code is in
the vocabulary. -/
def flagOfInt (k : Int) : Option FeatureFlag :=
  allFlags.find? (fun f => f.toInt == k)

/-- The `nameToFeature` lookup table built by `init()` in features.go:
it maps each identifier's canonical name to the identifier. -/
def nameToFeature (n : String) : Option FeatureFlag :=
  allFlags.find? (fun f => f.name == n)

/-- The mutable package-level state of features.go: the `features` map
(Current State) and the `initial` map (Default State), both keyed by the
flag's integer code. -/
structure RegState where
  features : Int → Option Bool
  initial : Int → Option Bool

/-- The state right after package initialization: `features` holds the map
literal's defaults and `init()` has copied them into `initial`. -/
def initState : RegState :=
  { features := fun k => (flagOfInt k).map defaultValue,
    initial := fun k => (flagOfInt k).map defaultValue }

/-- A single map write `features[f] = v`. -/
def setFlag (m : Int → Option Bool) (f : FeatureFlag) (v : Bool) :
    Int → Option Bool :=
  fun k => if k = f.toInt then some v else m k

/-- The loop body of `Set`: for each (name, value) entry, either write the
resolved flag or append the name to the `unknown` list. -/
def setLoop (m : Int → Option Bool) (unknown : List String) :
    List (String × Bool) → (Int → Option Bool) × List String
  | [] => (m, unknown)
  | (n, v) :: rest =>
    match nameToFeature n with
    | some f => setLoop (setFlag m f v) unknown rest
    | none => setLoop m (unknown ++ [n]) rest

/-- The `Set` operation of features.go: apply every recognized entry, then
return an error exactly when unknown names were seen and the (just
updated) `AllowUnrecognizedFeatures` flag reads false. -/
def Set (s : RegState) (featureSet : List (String × Bool)) :
    RegState × Option String :=
  let r := setLoop s.features [] featureSet
  let s1 : RegState := { features := r.1, initial := s.initial }
  if r.2.length > 0 && !((r.1 AllowUnrecognizedFeatures.toInt).getD false) then
    (s1, some ("unrecognized feature flag names: " ++
      String.intercalate ", " r.2))
  else
    (s1, none)

/-- The `Enabled` operation of features.go: `some v` models a normal
return, `none` models the panic on an identifier absent from the map. -/
def Enabled (s : RegState) (n : Int) : Option Bool :=
  s.features n

/-- The `Reset` operation of features.go: overwrite each key present in
`initial` with its default; other keys are untouched. -/
def Reset (s : RegState) : RegState :=
  { features := fun k =>
      match s.initial k with
      | some v => some v
      | none => s.features k,
    initial := s.initial }

/-- The registry states reachable from initialization through the public
operations. -/
inductive Reachable : RegState → Prop
  | init : Reachable initState
  | set (s : RegState) (entries : List (String × Bool)) :
      Reachable s → Reachable (Set s entries).1
  | reset (s : RegState) : Reachable s → Reachable (Reset s)

/-- The input names that do not resolve via the lookup table, in input
order. -/
def unknownNames (entries : List (String × Bool)) : List String :=
  (entries.filter (fun e => (nameToFeature e.1).isNone)).map Prod.fst

/-- State invariant: the Default State snapshot still equals the one taken
at initialization, and the domain of Current State is exactly the codes of
the closed vocabulary. -/
def goodState (s : RegState) : Prop :=
  s.initial = initState.initial ∧
  ∀ k : Int, (s.features k).isSome = true ↔ ∃ F : FeatureFlag, F.toInt = k

/-- Decoding is a left inverse of encoding: each declared flag's code
resolves back to the flag. -/
theorem flagOfInt_toInt (F : FeatureFlag) : flagOfInt F.toInt = some F := by
  cases F <;> decide

/-- The integer codes of the flags are pairwise distinct. -/
theorem toInt_inj {F G : FeatureFlag} (h : F.toInt = G.toInt) : F = G := by
  have h1 : flagOfInt F.toInt = some F := flagOfInt_toInt F
  rw [h, flagOfInt_toInt G] at h1
  exact (Option.some.inj h1).symm

/-- Each flag's canonical name resolves back to the flag. -/
theorem nameToFeature_name (F : FeatureFlag) :
    nameToFeature F.name = some F := by
  cases F <;> decide

/-- Only a flag's canonical name resolves to it. -/
theorem name_of_nameToFeature {n : String} {F : FeatureFlag}
    (h : nameToFeature n = some F) : n = F.name := by
  unfold nameToFeature at h
  have h2 := List.find?_some h
  exact (eq_of_beq h2).symm

/-- A code is in the vocabulary exactly when some flag carries it. -/
theorem flagOfInt_isSome {k : Int} :
    (flagOfInt k).isSome = true ↔ ∃ F : FeatureFlag, F.toInt = k := by
  constructor
  · intro h
    rcases Option.isSome_iff_exists.mp h with ⟨F, hF⟩
    unfold flagOfInt at hF
    have h2 := List.find?_some hF
    exact ⟨F, eq_of_beq h2⟩
  · rintro ⟨F, rfl⟩
    rw [flagOfInt_toInt F]
    rfl

/-- The unknown list accumulated by the `Set` loop is exactly the input
names that do not resolve, appended to the accumulator. -/
theorem setLoop_unknown (es : List (String × Bool)) :
    ∀ (m : Int → Option Bool) (acc : List String),
    (setLoop m acc es).2 = acc ++ unknownNames es := by
  induction es with
  | nil =>
    intro m acc
    simp [setLoop, unknownNames]
  | cons e rest ih =>
    intro m acc
    obtain ⟨n, v⟩ := e
    cases hn : nameToFeature n with
    | some f =>
      simp [setLoop, hn, ih, unknownNames, List.filter_cons, Option.isNone_iff_eq_none]
    | none =>
      simp [setLoop, hn, ih, unknownNames, List.filter_cons, Option.isNone_iff_eq_none]

/-- The `Set` loop leaves untouched every key that no input entry resolves
to. -/
theorem setLoop_frame (es : List (String × Bool)) :
    ∀ (m : Int → Option Bool) (acc : List String) (k : Int),
    (∀ p ∈ es, ∀ F : FeatureFlag, nameToFeature p.1 = some F → F.toInt ≠ k) →
    (setLoop m acc es).1 k = m k := by
  induction es with
  | nil =>
    intro m acc k _
    rfl
  | cons e rest ih =>
    intro m acc k h
    obtain ⟨n, v⟩ := e
    have hrest : ∀ p ∈ rest, ∀ F : FeatureFlag,
        nameToFeature p.1 = some F → F.toInt ≠ k :=
      fun p hp F hF => h p (List.mem_cons_of_mem _ hp) F hF
    cases hn : nameToFeature n with
    | some f =>
      have hk : f.toInt ≠ k := h (n, v) (List.mem_cons_self _ _) f hn
      simp only [setLoop, hn]
      rw [ih _ _ _ hrest]
      simp only [setFlag]
      rw [if_neg (fun hc => hk hc.symm)]
    | none =>
      simp only [setLoop, hn]
      exact ih _ _ _ hrest

/-- When input names are pairwise distinct, each entry that resolves to a
flag ends up written into that flag's slot by the `Set` loop. -/
theorem setLoop_writes (es : List (String × Bool)) :
    ∀ (m : Int → Option Bool) (acc : List String) (n : String) (v : Bool)
      (F : FeatureFlag),
    (n, v) ∈ es → nameToFeature n = some F → (es.map Prod.fst).Nodup →
    (setLoop m acc es).1 F.toInt = some v := by
  induction es with
  | nil =>
    intro _ _ _ _ _ hmem _ _
    cases hmem
  | cons e rest ih =>
    intro m acc n v F hmem hn hnd
    have hnd2 : e.1 ∉ rest.map Prod.fst ∧ (rest.map Prod.fst).Nodup := by
      simpa [List.nodup_cons] using hnd
    rcases List.mem_cons.mp hmem with heq | hrest
    · have he1 : e.1 = n := by rw [← heq]
      obtain ⟨en, ev⟩ := e
      have hen : en = n := he1
      have hev : ev = v := by
        have := heq
        rw [Prod.ext_iff] at this
        exact this.2.symm
      subst hen
      subst hev
      simp only [setLoop, hn]
      rw [setLoop_frame rest _ _ _ ?_]
      · simp [setFlag]
      · intro p hp G hG hGk
        have hGF : G = F := toInt_inj hGk
        subst hGF
        have hpn : p.1 = en := by
          rw [name_of_nameToFeature hG, name_of_nameToFeature hn]
        have : en ∈ rest.map Prod.fst :=
          hpn ▸ List.mem_map_of_mem Prod.fst hp
        exact hnd2.1 this
    · obtain ⟨en, ev⟩ := e
      cases he : nameToFeature en with
      | some f =>
        simp only [setLoop, he]
        exact ih _ _ _ _ _ hrest hn hnd2.2
      | none =>
        simp only [setLoop, he]
        exact ih _ _ _ _ _ hrest hn hnd2.2

/-- Any key made present by the `Set` loop either was present before or is
the code of a flag in the vocabulary. -/
theorem setLoop_isSome (es : List (String × Bool)) :
    ∀ (m : Int → Option Bool) (acc : List String) (k : Int),
    ((setLoop m acc es).1 k).isSome = true →
    (m k).isSome = true ∨ ∃ F : FeatureFlag, F.toInt = k := by
  induction es with
  | nil =>
    intro m acc k h
    exact Or.inl h
  | cons e rest ih =>
    intro m acc k h
    obtain ⟨n, v⟩ := e
    cases hn : nameToFeature n with
    | some f =>
      simp only [setLoop, hn] at h
      rcases ih _ _ _ h with h2 | h2
      · by_cases hk : k = f.toInt
        · exact Or.inr ⟨f, hk.symm⟩
        · left
          simpa [setFlag, hk] using h2
      · exact Or.inr h2
    | none =>
      simp only [setLoop, hn] at h
      exact ih _ _ _ h

/-- The `Set` loop never deletes a key: presence is preserved. -/
theorem setLoop_isSome_mono (es : List (String × Bool)) :
    ∀ (m : Int → Option Bool) (acc : List String) (k : Int),
    (m k).isSome = true → ((setLoop m acc es).1 k).isSome = true := by
  induction es with
  | nil =>
    intro m acc k h
    exact h
  | cons e rest ih =>
    intro m acc k h
    obtain ⟨n, v⟩ := e
    cases hn : nameToFeature n with
    | some f =>
      simp only [setLoop, hn]
      apply ih
      by_cases hk : k = f.toInt <;> simp [setFlag, hk, h]
    | none =>
      simp only [setLoop, hn]
      exact ih _ _ _ h

/-- The state component of `Set` is the loop result, for both the error
and the success outcome. -/
theorem Set_fst (s : RegState) (es : List (String × Bool)) :
    (Set s es).1 =
      { features := (setLoop s.features [] es).1, initial := s.initial } := by
  unfold Set
  dsimp only
  split <;> rfl

/-- The error component of `Set`, characterized through `unknownNames` and
the final value of the `AllowUnrecognizedFeatures` slot. -/
theorem Set_snd (s : RegState) (es : List (String × Bool)) :
    (Set s es).2 =
      if unknownNames es ≠ [] ∧
          ((setLoop s.features [] es).1
            AllowUnrecognizedFeatures.toInt).getD false = false then
        some ("unrecognized feature flag names: " ++
          String.intercalate ", " (unknownNames es))
      else none := by
  unfold Set
  simp only [setLoop_unknown, List.nil_append]
  by_cases h1 : unknownNames es = []
  · simp [h1]
  · by_cases h2 : ((setLoop s.features [] es).1
        AllowUnrecognizedFeatures.toInt).getD false = false
    · have hlen : 0 < (unknownNames es).length := List.length_pos.mpr h1
      simp [h1, h2, hlen]
    · have h2' : ((setLoop s.features [] es).1
          AllowUnrecognizedFeatures.toInt).getD false = true := by
        revert h2
        cases ((setLoop s.features [] es).1
          AllowUnrecognizedFeatures.toInt).getD false <;> simp
      simp [h1, h2, h2']

/-- Every state reachable through the public operations satisfies the
registry invariant. -/
theorem reachable_good {s : RegState} (h : Reachable s) : goodState s := by
  induction h with
  | init =>
    refine ⟨rfl, fun k => ?_⟩
    show ((flagOfInt k).map defaultValue).isSome = true ↔ _
    rw [← flagOfInt_isSome]
    cases flagOfInt k <;> simp
  | set s es _ ih =>
    rw [Set_fst]
    refine ⟨ih.1, fun k => ?_⟩
    constructor
    · intro hk
      rcases setLoop_isSome es _ _ _ hk with h2 | h2
      · exact (ih.2 k).mp h2
      · exact h2
    · intro hk
      exact setLoop_isSome_mono es _ _ _ ((ih.2 k).mpr hk)
  | reset s _ ih =>
    refine ⟨ih.1, fun k => ?_⟩
    show (match s.initial k with
      | some v => some v
      | none => s.features k).isSome = true ↔ _
    cases hi : s.initial k with
    | some v =>
      simp only [Option.isSome_some, true_iff]
      rw [ih.1] at hi
      rw [← flagOfInt_isSome]
      have : (initState.initial k).isSome = true := by rw [hi]; rfl
      show (flagOfInt k).isSome = true
      revert this
      show ((flagOfInt k).map defaultValue).isSome = true → _
      cases flagOfInt k <;> simp
    | none =>
      exact ih.2 k

example : nameToFeature "SHA1CSRs" = some SHA1CSRs := by decide
example : nameToFeature "bogus" = none := by decide
example : Enabled initState OldTLSOutbound.toInt = some true := by decide
example : Enabled initState 99 = none := by decide
example :
    (Set initState [("ECDSAForAll", true), ("bogus", true)]).2 =
      some "unrecognized feature flag names: bogus" := by decide
example :
    (Set initState [("bogus", true), ("AllowUnrecognizedFeatures", true)]).2 =
      none := by decide

/-- C1: `Set` returns an error if and only if the set of input names that
do not resolve via the lookup table is non-empty and the
`AllowUnrecognizedFeatures` flag, as read at the end of the call from the
updated state, is false; otherwise it returns no error. -/
theorem set_error_iff (s : RegState) (es : List (String × Bool)) :
    (Set s es).2 ≠ none ↔
      unknownNames es ≠ [] ∧
      ((Set s es).1.features AllowUnrecognizedFeatures.toInt).getD false
        = false := by
  rw [Set_snd, Set_fst]
  by_cases h : unknownNames es ≠ [] ∧
      ((setLoop s.features [] es).1
        AllowUnrecognizedFeatures.toInt).getD false = false
  · rw [if_pos h]
    simpa using h
  · rw [if_neg h]
    simpa using h

/-- C2: every input entry whose name resolves to a known flag is written
into Current State even when the call returns an error, and the returned
error enumerates every unrecognized name of the call. -/
theorem set_partial_apply (s : RegState) (es : List (String × Bool))
    (hnd : (es.map Prod.fst).Nodup) :
    (∀ (n : String) (v : Bool) (F : FeatureFlag),
      (n, v) ∈ es → nameToFeature n = some F →
      (Set s es).1.features F.toInt = some v) ∧
    (∀ msg : String, (Set s es).2 = some msg →
      msg = "unrecognized feature flag names: " ++
        String.intercalate ", " (unknownNames es)) := by
  constructor
  · intro n v F hmem hn
    rw [Set_fst]
    exact setLoop_writes es _ _ _ _ _ hmem hn hnd
  · intro msg hmsg
    rw [Set_snd] at hmsg
    by_cases h : unknownNames es ≠ [] ∧
        ((setLoop s.features [] es).1
          AllowUnrecognizedFeatures.toInt).getD false = false
    · rw [if_pos h] at hmsg
      exact (Option.some.inj hmsg).symm
    · rw [if_neg h] at hmsg
      cases hmsg

/-- Witness for C2 at a concrete call mixing one known and one unknown
name: the known entry is applied although the call errors. -/
theorem set_partial_apply_witness :
    (Set initState [("ECDSAForAll", true), ("bogus", true)]).1.features
      FeatureFlag.ECDSAForAll.toInt = some true :=
  (set_partial_apply initState [("ECDSAForAll", true), ("bogus", true)]
    (by decide)).1 "ECDSAForAll" true ECDSAForAll (by decide) (by decide)

/-- C3: setting a single flag to `b` via its canonical name and then
querying it returns `b`, from any starting state. -/
theorem set_then_get (s : RegState) (F : FeatureFlag) (b : Bool) :
    Enabled (Set s [(F.name, b)]).1 F.toInt = some b := by
  rw [Enabled, Set_fst]
  show (setLoop s.features [] [(F.name, b)]).1 F.toInt = some b
  simp only [setLoop, nameToFeature_name]
  simp [setFlag]

/-- C4: from any reachable state, `Reset` followed by `Enabled` returns
every flag's declared default, including flags never touched. -/
theorem reset_restores_defaults {s : RegState} (h : Reachable s)
    (F : FeatureFlag) :
    Enabled (Reset s) F.toInt = some (defaultValue F) := by
  have hinit := (reachable_good h).1
  rw [Enabled]
  show (match s.initial F.toInt with
    | some v => some v
    | none => s.features F.toInt) = some (defaultValue F)
  rw [hinit]
  show (match initState.initial F.toInt with
    | some v => some v
    | none => s.features F.toInt) = some (defaultValue F)
  simp [initState, flagOfInt_toInt]

/-- Witness for C4: after a `Set` that flips `OldTLSOutbound`, `Reset`
restores its default. -/
theorem reset_restores_defaults_witness :
    Enabled (Reset (Set initState [("OldTLSOutbound", false)]).1)
      FeatureFlag.OldTLSOutbound.toInt =
      some (defaultValue OldTLSOutbound) :=
  reset_restores_defaults
    (Reachable.set initState [("OldTLSOutbound", false)] Reachable.init)
    OldTLSOutbound

/-- C5: before any `Set`, `Enabled` returns each flag's declared default,
which is true exactly for `OldTLSOutbound`, `OldTLSInbound` and
`SHA1CSRs`. -/
theorem initial_defaults (F : FeatureFlag) :
    Enabled initState F.toInt = some (defaultValue F) ∧
    (defaultValue F = true ↔
      F = OldTLSOutbound ∨ F = OldTLSInbound ∨ F = SHA1CSRs) := by
  constructor
  · rw [Enabled]
    show (flagOfInt F.toInt).map defaultValue = some (defaultValue F)
    rw [flagOfInt_toInt]
    rfl
  · cases F <;> decide

/-- C6: in every reachable state, `Enabled` on an identifier outside the
closed vocabulary reaches the panic branch (modelled as `none`), while on
an identifier in the vocabulary it never panics and returns the flag's
current boolean value. -/
theorem enabled_panic_iff {s : RegState} (h : Reachable s) :
    (∀ n : Int, (∀ F : FeatureFlag, F.toInt ≠ n) → Enabled s n = none) ∧
    (∀ F : FeatureFlag, ∃ b : Bool, Enabled s F.toInt = some b) := by
  have hg := (reachable_good h).2
  constructor
  · intro n hn
    rw [Enabled]
    cases he : s.features n with
    | none => rfl
    | some v =>
      have hs : (s.features n).isSome = true := by rw [he]; rfl
      rcases (hg n).mp hs with ⟨F, hF⟩
      exact absurd hF (hn F)
  · intro F
    have hs : (s.features F.toInt).isSome = true := (hg _).mpr ⟨F, rfl⟩
    rcases Option.isSome_iff_exists.mp hs with ⟨b, hb⟩
    exact ⟨b, hb⟩

/-- Witness for C6: the out-of-vocabulary code 99 panics in the initial
state, while `SHA1CSRs` returns a boolean. -/
theorem enabled_panic_iff_witness :
    Enabled initState 99 = none ∧
    ∃ b : Bool, Enabled initState FeatureFlag.SHA1CSRs.toInt = some b :=
  ⟨(enabled_panic_iff Reachable.init).1 99 (by decide),
   (enabled_panic_iff Reachable.init).2 SHA1CSRs⟩

/-- C7: after every operation, the Default State snapshot equals the one
captured at initialization and the domain of Current State is exactly the
codes of the closed vocabulary (one entry per identifier). -/
theorem state_invariants {s : RegState} (h : Reachable s) :
    s.initial = initState.initial ∧
    (∀ k : Int, (s.features k).isSome = true ↔
      ∃ F : FeatureFlag, F.toInt = k) :=
  reachable_good h

/-- Witness for C7 after one `Reset`: the snapshot is unchanged and code 5
(`MandatoryPOSTAsGET`) is in the domain. -/
theorem state_invariants_witness :
    (Reset initState).initial = initState.initial ∧
    (((Reset initState).features 5).isSome = true ↔
      ∃ F : FeatureFlag, F.toInt = 5) :=
  ⟨(state_invariants (Reachable.reset initState Reachable.init)).1,
   (state_invariants (Reachable.reset initState Reachable.init)).2 5⟩

/-- C8: on every reachable state, calling `Reset` twice yields exactly the
state of calling it once. -/
theorem reset_idempotent {s : RegState} (_h : Reachable s) :
    Reset (Reset s) = Reset s := by
  obtain ⟨f, i⟩ := s
  simp only [Reset, RegState.mk.injEq, and_true]
  funext k
  cases hik : i k <;> simp [hik]

/-- Witness for C8 at the initial state. -/
theorem reset_idempotent_witness :
    Reset (Reset initState) = Reset initState :=
  reset_idempotent Reachable.init

/-- C9: a `Set` call whose input maps the name of
`AllowUnrecognizedFeatures` to true returns no error, whatever the order
of entries, the other names and the flag's prior value: the suppression
check reads the flag after all entries of the call were applied. -/
theorem set_self_suppression (s : RegState) (es : List (String × Bool))
    (hnd : (es.map Prod.fst).Nodup)
    (hmem : (AllowUnrecognizedFeatures.name, true) ∈ es) :
    (Set s es).2 = none := by
  have hw : (setLoop s.features [] es).1 AllowUnrecognizedFeatures.toInt
      = some true :=
    setLoop_writes es _ _ _ _ _ hmem (nameToFeature_name _) hnd
  rw [Set_snd, if_neg]
  intro hcon
  rw [hw] at hcon
  cases hcon.2

/-- Witness for C9: an unknown name first, the suppression flag second,
starting from a state where the flag is false; no error results. -/
theorem set_self_suppression_witness :
    (Set initState
      [("totallyBogus", true), ("AllowUnrecognizedFeatures", true)]).2 =
      none :=
  set_self_suppression initState
    [("totallyBogus", true), ("AllowUnrecognizedFeatures", true)]
    (by decide) (by decide)

/-- C10: `Set` leaves every flag whose canonical name is not an input key
unchanged, and unknown input names never create entries in Current
State. -/
theorem set_frame (s : RegState) (es : List (String × Bool)) :
    (∀ F : FeatureFlag, F.name ∉ es.map Prod.fst →
      (Set s es).1.features F.toInt = s.features F.toInt) ∧
    (∀ n : Int, (∀ F : FeatureFlag, F.toInt ≠ n) →
      (Set s es).1.features n = s.features n) := by
  constructor
  · intro F hF
    rw [Set_fst]
    show (setLoop s.features [] es).1 F.toInt = s.features F.toInt
    apply setLoop_frame
    intro p hp G hG hGk
    have hGF : G = F := toInt_inj hGk
    subst hGF
    have hpn : p.1 = G.name := name_of_nameToFeature hG
    exact hF (hpn ▸ List.mem_map_of_mem Prod.fst hp)
  · intro n hn
    rw [Set_fst]
    show (setLoop s.features [] es).1 n = s.features n
    apply setLoop_frame
    intro p hp G hG
    exact hn G

/-- Witness for C10: a call naming `EnforceMultiVA` and an unknown name
leaves `SHA1CSRs` and the out-of-vocabulary code 99 unchanged. -/
theorem set_frame_witness :
    (Set initState [("EnforceMultiVA", true), ("bogus", true)]).1.features
        FeatureFlag.SHA1CSRs.toInt =
      initState.features FeatureFlag.SHA1CSRs.toInt ∧
    (Set initState [("EnforceMultiVA", true), ("bogus", true)]).1.features
        99 = initState.features 99 :=
  ⟨(set_frame initState [("EnforceMultiVA", true), ("bogus", true)]).1
      SHA1CSRs (by decide),
   (set_frame initState [("EnforceMultiVA", true), ("bogus", true)]).2
      99 (by decide)⟩

end Features
